import Mathlib

/-!
Shallow embedding of the frontera scheduling core (revisiting queue,
partitioner, kafka feed-stream backpressure) and proofs about it.

The embedding follows the Python source:
* frontera/core/components.py (States constants, Partitioner)
* frontera/contrib/backends/sqlalchemy/revisiting.py
  (retry_and_rollback, RevisitingQueue, Backend)
* frontera/contrib/messagebus/kafkabus.py (SpiderFeedStream)

Machine integers are modelled as Nat/Int; timestamps are epoch seconds as
Nat; the float score column is modelled as Int (only its ordering matters
to any statement here); fallible code returns Option; the database session
is modelled as an explicit record store with commit/rollback made explicit
by returning either the updated store (commit) or the original one
(rollback).
-/

namespace Frontera

-- Crawl-state constants from `frontera.core.components.States`.
namespace States

def NOT_CRAWLED : Nat := 0

def QUEUED : Nat := 1

def CRAWLED : Nat := 2

def ERROR : Nat := 3

end States

/-- The `meta` mapping of a Request, restricted to the keys the embedded
code reads or writes: `b'state'`, `b'queue_id'`, `b'crawl_at'`,
`b'fingerprint'`. -/
structure Meta where
  state : Nat
  queue_id : Option Nat
  crawl_at : Option Nat
  fingerprint : String
  deriving DecidableEq

/-- `frontera.core.models.Request`, restricted to the fields the embedded
code touches. -/
structure Request where
  url : String
  method : String
  headers : String
  cookies : String
  meta : Meta
  deriving DecidableEq

/-- `Partitioner.HASH_MASK = 2**31 - 1` from components.py. -/
def HASH_MASK : Nat := 2 ^ 31 - 1

/-- `frontera.core.components.Partitioner`: the abstract `hash` and
`get_key` methods (implemented by subclasses that are outside the three
embedded files) are fields, `partitions` is the constructor argument. -/
structure Partitioner where
  hash : String → Nat
  get_key : Request → Option String
  partitions : List Nat

/-- `Partitioner.partition(key, partitions=None)`: an empty/None argument
list falls back to `self.partitions` (Python truthiness of `not
partitions`); a `None` key selects `partitions[0]`; otherwise the hashed,
masked key modulo the list length indexes the list.  Indexing a possibly
empty list is the one fallible step, hence `Option`. -/
def Partitioner.partition (p : Partitioner) (key : Option String)
    (partitionsArg : List Nat) : Option Nat :=
  let partitions := if partitionsArg.isEmpty then p.partitions else partitionsArg
  match key with
  | none => partitions.head?
  | some k =>
    let idx := (p.hash k &&& HASH_MASK) % partitions.length
    partitions[idx]?

/-- A persisted row of the `revisiting_queue` table (`QueueModelMixin`
columns plus the `crawl_at` column added by `RevisitingQueueModel`). -/
structure QueueRecord where
  id : Nat
  fingerprint : String
  score : Int
  url : String
  method : String
  headers : String
  cookies : String
  meta : Meta
  partition_id : Nat
  host_crc32 : Nat
  created_at : Nat
  crawl_at : Nat
  deriving DecidableEq

/-- The column dictionary built by `RevisitingQueue.request_data` (every
column of a row except the storage-assigned `id`). -/
structure QueueData where
  fingerprint : String
  score : Int
  url : String
  meta : Meta
  headers : String
  cookies : String
  method : String
  partition_id : Nat
  host_crc32 : Nat
  created_at : Nat
  crawl_at : Nat
  deriving DecidableEq

/-- The committed state of the queue's backing store: the stored rows plus
the next id the storage will assign to an insert (storage-assigned ids
start at 1). -/
structure Db where
  records : List QueueRecord
  nextId : Nat
  deriving DecidableEq

/-- Overwrite every column of a row except its id with the given column
data, as `UPDATE ... SET` does. -/
def applyData (r : QueueRecord) (d : QueueData) : QueueRecord :=
  { id := r.id, fingerprint := d.fingerprint, score := d.score, url := d.url,
    method := d.method, headers := d.headers, cookies := d.cookies,
    meta := d.meta, partition_id := d.partition_id, host_crc32 := d.host_crc32,
    created_at := d.created_at, crawl_at := d.crawl_at }

/-- `session.query(queue_model).filter_by(id=queue_id).update(data)`:
update in place every stored row whose id matches. -/
def Db.updateById (db : Db) (qid : Nat) (d : QueueData) : Db :=
  { db with records := db.records.map (fun r => if r.id = qid then applyData r d else r) }

/-- Insert one new row, letting the storage assign the next id. -/
def Db.insertData (db : Db) (d : QueueData) : Db :=
  { records := db.records ++
      [{ id := db.nextId, fingerprint := d.fingerprint, score := d.score,
         url := d.url, method := d.method, headers := d.headers,
         cookies := d.cookies, meta := d.meta, partition_id := d.partition_id,
         host_crc32 := d.host_crc32, created_at := d.created_at,
         crawl_at := d.crawl_at }],
    nextId := db.nextId + 1 }

/-- `session.bulk_save_objects(to_save)` for a list of fresh (id-less)
objects: insert them in order. -/
def Db.insertAll : Db → List QueueData → Db
  | db, [] => db
  | db, d :: ds => (db.insertData d).insertAll ds

/-- `RevisitingQueue.__init__`: the session is passed per call as an
explicit `Db`, so the structure keeps only the partitioner and the
dequeue-hold delay (`dequeued_delay.total_seconds()`, in seconds). -/
structure RevisitingQueue where
  partitioner : Partitioner
  dequeued_delay : Nat

/-- `RevisitingQueue.request_from_record`: builds a Request from a stored
row; an empty (falsy) method defaults to GET, and the row id is put into
the meta copy under `b'queue_id'`. -/
def request_from_record (item : QueueRecord) : Request :=
  { url := item.url,
    method := if item.method.isEmpty then "GET" else item.method,
    headers := item.headers,
    cookies := item.cookies,
    meta := { item.meta with queue_id := some item.id } }

/-- The dequeue ordering `ORDER BY score DESC, crawl_at ASC`:
`a` comes no later than `b` when `a` has the larger score, or equal scores
and `a` has the earlier (or equal) `crawl_at`. -/
def recordLE (a b : QueueRecord) : Prop :=
  b.score < a.score ∨ (a.score = b.score ∧ a.crawl_at ≤ b.crawl_at)

instance : DecidableRel recordLE := fun a b => by
  unfold recordLE; infer_instance

instance : IsTotal QueueRecord recordLE where
  total a b := by unfold recordLE; omega

instance : IsTrans QueueRecord recordLE where
  trans a b c hab hbc := by unfold recordLE at *; omega

/-- `RevisitingQueue.query_next_requests`: the rows of the partition whose
`crawl_at` is at most the current time, ordered by score descending with
`crawl_at` ascending as tie-break, limited to `max_n_requests`. -/
def query_next_requests (db : Db) (now : Nat) (max_n_requests : Nat)
    (partition_id : Nat) : List QueueRecord :=
  ((db.records.filter
      (fun r => decide (r.crawl_at ≤ now) && decide (r.partition_id = partition_id))).insertionSort
    recordLE).take max_n_requests

/-- Where (if anywhere) an exception interrupts one call to
`RevisitingQueue.get_next_requests`: nowhere; while processing the record
at position `k` of the selection (db error, record conversion, ...), so
before the k-th Request is appended to `results`; or at
`bulk_save_objects`/`commit` after the loop. -/
inductive GnrFault where
  | success : GnrFault
  | duringLoop : Nat → GnrFault
  | atCommit : GnrFault
  deriving DecidableEq

/-- `RevisitingQueue.get_next_requests`: convert each selected row to a
Request, advance the row's `crawl_at` by the dequeue-hold delay, save and
commit; any exception is caught, the session is rolled back (the store
keeps its pre-call state) and the `results` accumulated so far are
returned. -/
def RevisitingQueue.get_next_requests (q : RevisitingQueue) (db : Db)
    (now max_n_requests partition_id : Nat) (fault : GnrFault) :
    List Request × Db :=
  let sel := query_next_requests db now max_n_requests partition_id
  match fault with
  | .success =>
      (sel.map request_from_record,
       { db with records :=
          db.records.map (fun r =>
            if sel.any (fun s => s.id = r.id)
            then { r with crawl_at := now + q.dequeued_delay } else r) })
  | .duringLoop k => ((sel.take k).map request_from_record, db)
  | .atCommit => (sel.map request_from_record, db)

/-- `RevisitingQueue.request_data`: builds the column dictionary for one
batch entry.  `hostname_of` stands for `parse_domain_from_url_fast`'s
hostname component and `crc32` for `get_crc32` (both live outside the
three embedded files; no claim depends on their values).  A `None` key
from `get_key` falls back to `partitions[0]` and logs an error (the
returned Bool); indexing an empty partition list is the fallible step.
The scheduled time is `meta[b'crawl_at']` when present, else `now`;
`created_at` is the current time in microseconds. -/
def RevisitingQueue.request_data (q : RevisitingQueue)
    (hostname_of : String → Option String) (crc32 : String → Nat)
    (now : Nat) (fprint : String) (score : Int) (request : Request) :
    Option (QueueData × Bool) :=
  let host_crc32 :=
    match hostname_of request.url with
    | some h => if h.isEmpty then 0 else crc32 h
    | none => 0
  let schedule_at :=
    match request.meta.crawl_at with
    | some t => t
    | none => now
  let mk := fun (partition_id : Nat) (logged : Bool) =>
    some (({ fingerprint := fprint, score := score, url := request.url,
             meta := request.meta, headers := request.headers,
             cookies := request.cookies, method := request.method,
             partition_id := partition_id, host_crc32 := host_crc32,
             created_at := now * 1000000, crawl_at := schedule_at } : QueueData),
          logged)
  match q.partitioner.get_key request with
  | none =>
      match q.partitioner.partitions.head? with
      | none => none
      | some p0 => mk p0 true
  | some k =>
      match q.partitioner.partition (some k) [] with
      | none => none
      | some pid => mk pid false

/-- One batch entry handed to `RevisitingQueue.schedule`: the tuple
`(fprint, score, request, schedule)`. -/
structure BatchEntry where
  fprint : String
  score : Int
  request : Request
  schedule : Bool
  deriving DecidableEq

/-- `request.meta[b'state'] = States.QUEUED` applied to a batch entry. -/
def queuedEntry (e : BatchEntry) : BatchEntry :=
  { e with request :=
      { e.request with meta := { e.request.meta with state := States.QUEUED } } }

/-- The loop of `RevisitingQueue.schedule`: walk the batch threading the
store (in-place updates execute immediately) and the `to_save` list
(inserts are batched); each processed entry's request has its meta state
set to QUEUED; Python truthiness of `if queue_id:` means an absent id or
id 0 takes the insert path.  `none` is an exception escaping the loop
(only `request_data` can raise in the embedding). -/
def scheduleGo (q : RevisitingQueue) (hostname_of : String → Option String)
    (crc32 : String → Nat) (now : Nat) :
    Db → List QueueData → List BatchEntry →
    Option (Db × List QueueData × List BatchEntry)
  | db, toSave, [] => some (db, toSave, [])
  | db, toSave, e :: rest =>
    if e.schedule then
      match q.request_data hostname_of crc32 now e.fprint e.score e.request with
      | none => none
      | some (d, _) =>
        match e.request.meta.queue_id with
        | some qid =>
            if qid = 0 then
              (scheduleGo q hostname_of crc32 now db (toSave ++ [d]) rest).map
                (fun x => (x.1, x.2.1, queuedEntry e :: x.2.2))
            else
              (scheduleGo q hostname_of crc32 now (db.updateById qid d) toSave rest).map
                (fun x => (x.1, x.2.1, queuedEntry e :: x.2.2))
        | none =>
            (scheduleGo q hostname_of crc32 now db (toSave ++ [d]) rest).map
              (fun x => (x.1, x.2.1, queuedEntry e :: x.2.2))
    else
      (scheduleGo q hostname_of crc32 now db toSave rest).map
        (fun x => (x.1, x.2.1, e :: x.2.2))

/-- `RevisitingQueue.schedule(batch)` (the body wrapped by
`retry_and_rollback`): run the loop, then `bulk_save_objects(to_save)` and
commit; the result is the committed store and the batch's requests after
their in-loop meta mutations. -/
def RevisitingQueue.schedule (q : RevisitingQueue)
    (hostname_of : String → Option String) (crc32 : String → Nat)
    (now : Nat) (db : Db) (batch : List BatchEntry) :
    Option (Db × List BatchEntry) :=
  match scheduleGo q hostname_of crc32 now db [] batch with
  | none => none
  | some (db1, toSave, entries) => some (db1.insertAll toSave, entries)

/-- `RevisitingQueue.count` body: `session.query(queue_model).count()`. -/
def RevisitingQueue.count (db : Db) : Nat :=
  db.records.length

/-- Result of one attempt of a wrapped storage operation: a value, or an
exception (identified by a code). -/
inductive Outcome (α : Type) where
  | ok : α → Outcome α
  | err : Nat → Outcome α
  deriving DecidableEq

/-- What one whole `retry_and_rollback`-wrapped call did: its final result,
how many attempts of the wrapped function ran, how many session rollbacks
ran, and the list of sleep durations (seconds) in order. -/
structure RetryResult (α : Type) where
  result : Outcome α
  attempts : Nat
  rollbacks : Nat
  sleeps : List Nat
  deriving DecidableEq

/-- The `while True` loop of `retry_and_rollback` with `tries` at loop
entry and `i` the index of the coming attempt (`f i` is what the i-th
attempt of the wrapped function returns): on success return; on exception
roll back, sleep 5, decrement `tries`, and continue while `tries > 0`,
else re-raise. -/
def retryLoop (f : Nat → Outcome α) (tries : Nat) (i : Nat) : RetryResult α :=
  match f i with
  | .ok a => ⟨.ok a, 1, 0, []⟩
  | .err c =>
    if tries - 1 > 0 then
      let r := retryLoop f (tries - 1) (i + 1)
      ⟨r.result, r.attempts + 1, r.rollbacks + 1, 5 :: r.sleeps⟩
    else ⟨.err c, 1, 1, [5]⟩
  termination_by tries
  decreasing_by omega

/-- `retry_and_rollback(func)`: run the loop with `tries = 5`. -/
def retry_and_rollback (f : Nat → Outcome α) : RetryResult α :=
  retryLoop f 5 0

/-- `revisiting.Backend._schedule(requests)` loop: NOT_CRAWLED requests
get `meta[b'crawl_at'] = now`, CRAWLED or ERROR requests get
`meta[b'crawl_at'] = now + interval`, anything else (QUEUED) is skipped;
each non-skipped request is appended to the batch as
`(meta[b'fingerprint'], _get_score(request), request, True)`.
`get_score` stands for `SQLAlchemyBackend._get_score`, outside the
embedded files. -/
def backendScheduleLoop (interval : Nat) (get_score : Request → Int)
    (now : Nat) : List Request → List BatchEntry
  | [] => []
  | r :: rest =>
    if r.meta.state = States.NOT_CRAWLED then
      let r1 : Request := { r with meta := { r.meta with crawl_at := some now } }
      ⟨r1.meta.fingerprint, get_score r1, r1, true⟩ ::
        backendScheduleLoop interval get_score now rest
    else if r.meta.state = States.CRAWLED ∨ r.meta.state = States.ERROR then
      let r1 : Request := { r with meta := { r.meta with crawl_at := some (now + interval) } }
      ⟨r1.meta.fingerprint, get_score r1, r1, true⟩ ::
        backendScheduleLoop interval get_score now rest
    else
      backendScheduleLoop interval get_score now rest

/-- The batches `Backend._schedule` hands to its two collaborators after
the loop: the same built batch goes to `queue.schedule` and to
`metadata.update_score`, and `queue_size` grows by its length. -/
structure ScheduleEffects where
  batch : List BatchEntry
  queue_batch : List BatchEntry
  metadata_batch : List BatchEntry
  queue_size_delta : Nat
  deriving DecidableEq

/-- `Backend._schedule(requests)`: build the batch, then
`queue.schedule(batch)`, `metadata.update_score(batch)`,
`queue_size += len(batch)`. -/
def Backend.scheduleRequests (interval : Nat) (get_score : Request → Int)
    (now : Nat) (requests : List Request) : ScheduleEffects :=
  let batch := backendScheduleLoop interval get_score now requests
  { batch := batch, queue_batch := batch, metadata_batch := batch,
    queue_size_delta := batch.length }

/-- `SpiderFeedStream.available_partitions`: iterate the fetched
`{partition: lag}` mapping (as an association list) and keep the
partitions whose lag is strictly below `max_next_requests`. -/
def available_partitions : List (Nat × Nat) → Nat → List Nat
  | [], _ => []
  | (p, lag) :: rest, max_next_requests =>
    if lag < max_next_requests then p :: available_partitions rest max_next_requests
    else available_partitions rest max_next_requests

/-! Concrete instances used by witnesses and counterexamples. -/

def hostnameNone : String → Option String := fun _ => none

def crc0 : String → Nat := fun _ => 0

def cxPartitioner : Partitioner :=
  { hash := String.length, get_key := fun _ => none, partitions := [0] }

def cxQueue : RevisitingQueue :=
  { partitioner := cxPartitioner, dequeued_delay := 60 }

def cxMeta : Meta :=
  { state := 2, queue_id := some 1, crawl_at := none, fingerprint := "fp" }

def cxReq : Request :=
  { url := "http://example.com/a", method := "GET", headers := "", cookies := "",
    meta := cxMeta }

def cxRecord : QueueRecord :=
  { id := 1, fingerprint := "fp", score := 1, url := "http://example.com/a",
    method := "", headers := "", cookies := "", meta := cxMeta,
    partition_id := 0, host_crc32 := 0, created_at := 0, crawl_at := 0 }

def cxDb : Db := { records := [cxRecord], nextId := 2 }

def cxEntry : BatchEntry :=
  { fprint := "fp", score := 2, request := cxReq, schedule := true }

def cxFalseEntry : BatchEntry :=
  { fprint := "fp", score := 2, request := cxReq, schedule := false }

def cxData : QueueData :=
  { fingerprint := "fp", score := 2, url := "http://example.com/a",
    meta := cxMeta, headers := "", cookies := "", method := "GET",
    partition_id := 0, host_crc32 := 0, created_at := 7000000, crawl_at := 7 }

/-- The request as `Backend._schedule` re-stamps it: `meta[b'crawl_at']`
set to the given time. -/
def stamped (r : Request) (t : Nat) : Request :=
  { r with meta := { r.meta with crawl_at := some t } }

/-! Helper lemmas. -/

theorem assoc_key_unique {l : List (Nat × Nat)} (hnd : (l.map Prod.fst).Nodup)
    {p a b : Nat} (ha : (p, a) ∈ l) (hb : (p, b) ∈ l) : a = b := by
  induction l with
  | nil => cases ha
  | cons hd tl ih =>
    obtain ⟨ph, lagh⟩ := hd
    rw [List.map_cons, List.nodup_cons] at hnd
    rcases List.mem_cons.mp ha with h1 | h1 <;>
      rcases List.mem_cons.mp hb with h2 | h2
    · injection h1 with hp1 hl1
      injection h2 with hp2 hl2
      omega
    · injection h1 with hp1 hl1
      subst hp1
      exact absurd (List.mem_map_of_mem Prod.fst h2) hnd.1
    · injection h2 with hp2 hl2
      subst hp2
      exact absurd (List.mem_map_of_mem Prod.fst h1) hnd.1
    · exact ih hnd.2 h1 h2

theorem mem_available_partitions (lags : List (Nat × Nat)) (maxN p : Nat) :
    p ∈ available_partitions lags maxN ↔ ∃ lag, (p, lag) ∈ lags ∧ lag < maxN := by
  induction lags with
  | nil => simp [available_partitions]
  | cons hd tl ih =>
    obtain ⟨ph, lagh⟩ := hd
    by_cases hlt : lagh < maxN <;>
      simp only [available_partitions, hlt, if_true, if_false, List.mem_cons, ih]
    · constructor
      · rintro (rfl | ⟨lag, hm, hl⟩)
        · exact ⟨lagh, Or.inl rfl, hlt⟩
        · exact ⟨lag, Or.inr hm, hl⟩
      · rintro ⟨lag, h | hm, hl⟩
        · exact Or.inl (by cases h; rfl)
        · exact Or.inr ⟨lag, hm, hl⟩
    · constructor
      · rintro ⟨lag, hm, hl⟩
        exact ⟨lag, Or.inr hm, hl⟩
      · rintro ⟨lag, h | hm, hl⟩
        · cases h; exact absurd hl hlt
        · exact ⟨lag, hm, hl⟩

/-- C7: `available_partitions()` returns exactly the feed partitions whose
lag is strictly below the ceiling `max_next_requests`: a partition is in
the result iff it appears in the fetched lag mapping with lag below the
ceiling, and (the lag mapping having unique keys, as a dict does) a
partition whose lag meets or exceeds the ceiling is absent. -/
theorem available_partitions_lag_gate (lags : List (Nat × Nat)) (maxN p : Nat) :
    (p ∈ available_partitions lags maxN ↔ ∃ lag, (p, lag) ∈ lags ∧ lag < maxN) ∧
    (∀ lag, (lags.map Prod.fst).Nodup → (p, lag) ∈ lags → maxN ≤ lag →
      p ∉ available_partitions lags maxN) := by
  refine ⟨mem_available_partitions lags maxN p, ?_⟩
  intro lag hnd hm hge hmem
  obtain ⟨lag2, hm2, hlt2⟩ := (mem_available_partitions lags maxN p).mp hmem
  have : lag = lag2 := assoc_key_unique hnd hm hm2
  omega

theorem available_partitions_witness :
    1 ∉ available_partitions [(0, 3), (1, 10)] 5 :=
  (available_partitions_lag_gate [(0, 3), (1, 10)] 5 1).2 10 (by decide)
    (by decide) (by decide)

/-- C3: one call to `query_next_requests(max_n, partition_id)` at time
`now` selects at most `max_n` stored records, all from partition
`partition_id` and all with `crawl_at <= now` (so a record with `crawl_at`
in the future is never selected), ordered by score descending with
`crawl_at` ascending as tie-break. -/
theorem query_next_requests_spec (db : Db) (now maxN pid : Nat) :
    (query_next_requests db now maxN pid).length ≤ maxN ∧
    (∀ r ∈ query_next_requests db now maxN pid,
      r ∈ db.records ∧ r.partition_id = pid ∧ r.crawl_at ≤ now) ∧
    List.Sorted recordLE (query_next_requests db now maxN pid) ∧
    (∀ r ∈ query_next_requests db now maxN pid, ¬ now < r.crawl_at) := by
  have hmem : ∀ r ∈ query_next_requests db now maxN pid,
      r ∈ db.records ∧ r.partition_id = pid ∧ r.crawl_at ≤ now := by
    intro r hr
    have h1 := List.take_subset _ _ hr
    rw [List.mem_insertionSort] at h1
    have h2 := List.mem_filter.mp h1
    refine ⟨h2.1, ?_, ?_⟩
    · have := h2.2; simp at this; omega
    · have := h2.2; simp at this; omega
  refine ⟨List.length_take_le _ _, hmem, ?_, fun r hr => by
    have := (hmem r hr).2.2; omega⟩
  exact List.Pairwise.sublist (List.take_sublist _ _)
    (List.sorted_insertionSort recordLE _)

theorem query_next_requests_witness :
    cxRecord ∈ cxDb.records ∧ cxRecord.partition_id = 0 ∧ cxRecord.crawl_at ≤ 10 :=
  (query_next_requests_spec cxDb 10 5 0).2.1 cxRecord (by decide)

/-- C6 counterexample: the claim says reordering the partition list (same
set of partitions) does not change the returned value; but `partition`
returns `partitions[idx]`, so with the same key the lists `[0, 1]` and
`[1, 0]` give different ids. -/
theorem partition_order_counterexample :
    cxPartitioner.partition (some "a") [0, 1] ≠
      cxPartitioner.partition (some "a") [1, 0] := by decide

/-- C6 amended: repeated calls of `partition(k, P)` with identical
arguments return the same id (the function is pure), and reordering `P`
(same length, both nonempty) leaves the selected *index* unchanged — the
returned id is the element of the list at that index, so it can change
when the list is reordered. -/
theorem partition_deterministic_index_stable (pr : Partitioner) (k : String)
    (P Q : List Nat) (hlen : P.length = Q.length) (hP : P ≠ []) (hQ : Q ≠ []) :
    (∀ k2 P2, k2 = k → P2 = P →
      pr.partition (some k2) P2 = pr.partition (some k) P) ∧
    ∃ idx, idx < P.length ∧ pr.partition (some k) P = P[idx]? ∧
      pr.partition (some k) Q = Q[idx]? := by
  refine ⟨fun k2 P2 h1 h2 => by rw [h1, h2], ?_⟩
  refine ⟨(pr.hash k &&& HASH_MASK) % P.length, ?_, ?_, ?_⟩
  · exact Nat.mod_lt _ (List.length_pos.mpr hP)
  · simp [Partitioner.partition, List.isEmpty_iff, hP]
  · simp [Partitioner.partition, List.isEmpty_iff, hQ, hlen]

theorem partition_index_stable_witness :
    (∀ k2 P2, k2 = "a" → P2 = [3, 4] →
      cxPartitioner.partition (some k2) P2 = cxPartitioner.partition (some "a") [3, 4]) ∧
    ∃ idx, idx < ([3, 4] : List Nat).length ∧
      cxPartitioner.partition (some "a") [3, 4] = [3, 4][idx]? ∧
      cxPartitioner.partition (some "a") [4, 3] = [4, 3][idx]? :=
  partition_deterministic_index_stable cxPartitioner "a" [3, 4] [4, 3] rfl
    (by decide) (by decide)

theorem retryLoop_ok (f : Nat → Outcome α) (t i : Nat) (a : α)
    (h : f i = .ok a) : retryLoop f t i = ⟨.ok a, 1, 0, []⟩ := by
  rw [retryLoop.eq_def, h]

theorem retryLoop_err (f : Nat → Outcome α) (t i c : Nat) (h : f i = .err c) :
    retryLoop f t i =
      if t - 1 > 0 then
        ⟨(retryLoop f (t - 1) (i + 1)).result,
         (retryLoop f (t - 1) (i + 1)).attempts + 1,
         (retryLoop f (t - 1) (i + 1)).rollbacks + 1,
         5 :: (retryLoop f (t - 1) (i + 1)).sleeps⟩
      else ⟨.err c, 1, 1, [5]⟩ := by
  rw [retryLoop.eq_def, h]

theorem retryLoop_all_err (f : Nat → Outcome α) (e : Nat → Nat) :
    ∀ t i, 1 ≤ t → (∀ j, j < t → f (i + j) = .err (e (i + j))) →
      retryLoop f t i = ⟨.err (e (i + t - 1)), t, t, List.replicate t 5⟩ := by
  intro t
  induction t with
  | zero => omega
  | succ t ih =>
    intro i ht hf
    have h0 : f i = .err (e i) := by simpa using hf 0 (by omega)
    rw [retryLoop_err f (t + 1) i (e i) h0]
    cases t with
    | zero => simp
    | succ s =>
      have hcond : s + 1 + 1 - 1 > 0 := by omega
      rw [if_pos hcond]
      have hrec := ih (i + 1) (by omega) (fun j hj => by
        have := hf (j + 1) (by omega)
        simpa [Nat.add_assoc, Nat.add_comm 1 j] using this)
      simp only [Nat.add_sub_cancel] at hrec ⊢
      rw [hrec]
      rw [show i + 1 + (s + 1) - 1 = i + (s + 1 + 1) - 1 from by omega]
      simp [List.replicate_succ]

theorem retryLoop_first_ok (f : Nat → Outcome α) (a : α) :
    ∀ k t i, k + 1 ≤ t → (∀ j, j < k → ∃ c, f (i + j) = .err c) →
      f (i + k) = .ok a →
      retryLoop f t i = ⟨.ok a, k + 1, k, List.replicate k 5⟩ := by
  intro k
  induction k with
  | zero =>
    intro t i ht hfail hok
    rw [retryLoop_ok f t i a (by simpa using hok)]
    simp
  | succ k ih =>
    intro t i ht hfail hok
    obtain ⟨c, hc⟩ := hfail 0 (by omega)
    rw [retryLoop_err f t i c (by simpa using hc)]
    have h1 : t - 1 > 0 := by omega
    have hrec := ih (t - 1) (i + 1) (by omega)
      (fun j hj => by
        obtain ⟨c2, hc2⟩ := hfail (j + 1) (by omega)
        exact ⟨c2, by simpa [Nat.add_assoc, Nat.add_comm 1 j] using hc2⟩)
      (by simpa [Nat.add_assoc, Nat.add_comm 1 k] using hok)
    rw [if_pos h1, hrec]
    simp [List.replicate_succ]

/-- C4: the `retry_and_rollback` wrapper makes at most 5 attempts of the
wrapped operation; after every failed attempt it rolls the session back
and sleeps 5 seconds; if all 5 attempts fail it re-raises the exception of
the 5th (final) attempt; if some attempt among the first 5 succeeds, its
result is returned, no further attempt is made (exactly `k+1` attempts,
`k` rollbacks when the first `k` attempts fail). -/
theorem retry_and_rollback_spec (f : Nat → Outcome α) :
    (∀ e : Nat → Nat, (∀ i, i < 5 → f i = .err (e i)) →
      retry_and_rollback f = ⟨.err (e 4), 5, 5, [5, 5, 5, 5, 5]⟩) ∧
    (∀ k a, k < 5 → (∀ i, i < k → ∃ c, f i = .err c) → f k = .ok a →
      retry_and_rollback f = ⟨.ok a, k + 1, k, List.replicate k 5⟩) := by
  constructor
  · intro e hf
    have := retryLoop_all_err f e 5 0 (by omega) (fun j hj => by
      simpa using hf j (by omega))
    simpa [retry_and_rollback, List.replicate] using this
  · intro k a hk hfail hok
    have := retryLoop_first_ok f a k 5 0 (by omega)
      (fun j hj => by simpa using hfail j (by omega)) (by simpa using hok)
    simpa [retry_and_rollback] using this

theorem retry_and_rollback_witness :
    retry_and_rollback (fun i => (Outcome.err i : Outcome Nat)) =
      ⟨.err 4, 5, 5, [5, 5, 5, 5, 5]⟩ :=
  (retry_and_rollback_spec (fun i => (Outcome.err i : Outcome Nat))).1
    (fun i => i) (fun i _ => rfl)

theorem backendScheduleLoop_sound (interval : Nat) (gs : Request → Int)
    (now : Nat) : ∀ requests, ∀ e ∈ backendScheduleLoop interval gs now requests,
      ∃ r ∈ requests,
        (r.meta.state = States.NOT_CRAWLED ∨ r.meta.state = States.CRAWLED ∨
          r.meta.state = States.ERROR) ∧
        e = ⟨r.meta.fingerprint,
          gs (stamped r (if r.meta.state = States.NOT_CRAWLED then now else now + interval)),
          stamped r (if r.meta.state = States.NOT_CRAWLED then now else now + interval),
          true⟩ := by
  intro requests
  induction requests with
  | nil => intro e he; cases he
  | cons r rest ih =>
    intro e he
    by_cases h0 : r.meta.state = States.NOT_CRAWLED
    · rw [backendScheduleLoop, if_pos h0] at he
      rcases List.mem_cons.mp he with h | h
      · exact ⟨r, List.mem_cons_self r rest, Or.inl h0, by simp [h, stamped, h0]⟩
      · obtain ⟨r2, hr2, hs2, he2⟩ := ih e h
        exact ⟨r2, List.mem_cons_of_mem r hr2, hs2, he2⟩
    · by_cases h1 : r.meta.state = States.CRAWLED ∨ r.meta.state = States.ERROR
      · rw [backendScheduleLoop, if_neg h0, if_pos h1] at he
        rcases List.mem_cons.mp he with h | h
        · exact ⟨r, List.mem_cons_self r rest, Or.inr h1, by simp [h, stamped, h0]⟩
        · obtain ⟨r2, hr2, hs2, he2⟩ := ih e h
          exact ⟨r2, List.mem_cons_of_mem r hr2, hs2, he2⟩
      · rw [backendScheduleLoop, if_neg h0, if_neg h1] at he
        obtain ⟨r2, hr2, hs2, he2⟩ := ih e he
        exact ⟨r2, List.mem_cons_of_mem r hr2, hs2, he2⟩

theorem backendScheduleLoop_complete (interval : Nat) (gs : Request → Int)
    (now : Nat) : ∀ requests, ∀ r ∈ requests,
      (r.meta.state = States.NOT_CRAWLED →
        (⟨r.meta.fingerprint, gs (stamped r now), stamped r now, true⟩ : BatchEntry) ∈
          backendScheduleLoop interval gs now requests) ∧
      ((r.meta.state = States.CRAWLED ∨ r.meta.state = States.ERROR) →
        (⟨r.meta.fingerprint, gs (stamped r (now + interval)),
          stamped r (now + interval), true⟩ : BatchEntry) ∈
          backendScheduleLoop interval gs now requests) := by
  intro requests
  induction requests with
  | nil => intro r hr; cases hr
  | cons r0 rest ih =>
    intro r hr
    rcases List.mem_cons.mp hr with rfl | hr2
    · constructor
      · intro h0
        rw [backendScheduleLoop, if_pos h0]
        exact List.mem_cons_self _ _
      · intro h1
        have h0 : ¬ r.meta.state = States.NOT_CRAWLED := by
          rcases h1 with h | h <;> simp [h, States.CRAWLED, States.ERROR, States.NOT_CRAWLED]
        rw [backendScheduleLoop, if_neg h0, if_pos h1]
        exact List.mem_cons_self _ _
    · have hmem := ih r hr2
      constructor
      · intro h0
        rw [backendScheduleLoop]
        split
        · exact List.mem_cons_of_mem _ (hmem.1 h0)
        · split
          · exact List.mem_cons_of_mem _ (hmem.1 h0)
          · exact hmem.1 h0
      · intro h1
        rw [backendScheduleLoop]
        split
        · exact List.mem_cons_of_mem _ (hmem.2 h1)
        · split
          · exact List.mem_cons_of_mem _ (hmem.2 h1)
          · exact hmem.2 h1

theorem backendScheduleLoop_length (interval : Nat) (gs : Request → Int)
    (now : Nat) : ∀ requests,
      (backendScheduleLoop interval gs now requests).length =
        (requests.filter (fun r =>
          decide (r.meta.state = States.NOT_CRAWLED) ||
          decide (r.meta.state = States.CRAWLED) ||
          decide (r.meta.state = States.ERROR))).length := by
  intro requests
  induction requests with
  | nil => rfl
  | cons r rest ih =>
    by_cases h0 : r.meta.state = States.NOT_CRAWLED
    · rw [backendScheduleLoop, if_pos h0]
      simp [List.filter_cons, h0, ih]
    · by_cases h1 : r.meta.state = States.CRAWLED ∨ r.meta.state = States.ERROR
      · rw [backendScheduleLoop, if_neg h0, if_pos h1]
        rcases h1 with h | h <;> simp [List.filter_cons, h0, h, ih]
      · rw [backendScheduleLoop, if_neg h0, if_neg h1]
        push_neg at h1
        simp [List.filter_cons, h0, h1.1, h1.2, ih]

/-- C5: `Backend._schedule` hands the same built batch to both
`queue.schedule` and `metadata.update_score`; a NOT_CRAWLED request enters
the batch with `crawl_at = now`, a CRAWLED or ERROR request with
`crawl_at = now + interval`, each as `(fingerprint, score, request, True)`;
every batch entry comes from a request in one of those three states (so a
QUEUED request is skipped entirely, contributing no entry), and the batch
has exactly one entry per request in those three states. -/
theorem backend_schedule_branches (interval : Nat) (gs : Request → Int)
    (now : Nat) (requests : List Request) :
    (Backend.scheduleRequests interval gs now requests).queue_batch =
      backendScheduleLoop interval gs now requests ∧
    (Backend.scheduleRequests interval gs now requests).metadata_batch =
      backendScheduleLoop interval gs now requests ∧
    (∀ r ∈ requests, r.meta.state = States.NOT_CRAWLED →
      (⟨r.meta.fingerprint, gs (stamped r now), stamped r now, true⟩ : BatchEntry) ∈
        backendScheduleLoop interval gs now requests) ∧
    (∀ r ∈ requests, (r.meta.state = States.CRAWLED ∨ r.meta.state = States.ERROR) →
      (⟨r.meta.fingerprint, gs (stamped r (now + interval)),
        stamped r (now + interval), true⟩ : BatchEntry) ∈
        backendScheduleLoop interval gs now requests) ∧
    (∀ e ∈ backendScheduleLoop interval gs now requests,
      ∃ r ∈ requests,
        (r.meta.state = States.NOT_CRAWLED ∨ r.meta.state = States.CRAWLED ∨
          r.meta.state = States.ERROR) ∧
        e = ⟨r.meta.fingerprint,
          gs (stamped r (if r.meta.state = States.NOT_CRAWLED then now else now + interval)),
          stamped r (if r.meta.state = States.NOT_CRAWLED then now else now + interval),
          true⟩) ∧
    (backendScheduleLoop interval gs now requests).length =
      (requests.filter (fun r =>
        decide (r.meta.state = States.NOT_CRAWLED) ||
        decide (r.meta.state = States.CRAWLED) ||
        decide (r.meta.state = States.ERROR))).length :=
  ⟨rfl, rfl,
   fun r hr h0 => (backendScheduleLoop_complete interval gs now requests r hr).1 h0,
   fun r hr h1 => (backendScheduleLoop_complete interval gs now requests r hr).2 h1,
   backendScheduleLoop_sound interval gs now requests,
   backendScheduleLoop_length interval gs now requests⟩

theorem backend_schedule_witness :
    (⟨cxReq.meta.fingerprint, (0 : Int), stamped cxReq (7 + 3), true⟩ : BatchEntry) ∈
      backendScheduleLoop 3 (fun _ => (0 : Int)) 7 [cxReq] :=
  (backend_schedule_branches 3 (fun _ => (0 : Int)) 7 [cxReq]).2.2.2.1 cxReq
    (by decide) (Or.inl (by decide))

/-- C1 counterexample: with one eligible stored record and a failure at
the commit step, `get_next_requests` rolls the store back but returns the
already-built one-element request list — not the empty list the claim
requires on any failure. -/
theorem get_next_requests_failure_counterexample :
    (cxQueue.get_next_requests cxDb 10 5 0 GnrFault.atCommit).1 ≠ [] ∧
    GnrFault.atCommit ≠ GnrFault.success ∧
    (cxQueue.get_next_requests cxDb 10 5 0 GnrFault.atCommit).2 = cxDb := by
  refine ⟨by decide, by decide, by decide⟩

/-- C1 amended: if a failure occurs at any point of the select-and-release
step of `get_next_requests`, the store is rolled back to its pre-call
state, and the call returns the (possibly non-empty) prefix of converted
requests accumulated before the failure point — the full batch when the
failure is at save/commit time — rather than always an empty list. -/
theorem get_next_requests_failure_rolls_back (q : RevisitingQueue) (db : Db)
    (now maxN pid : Nat) (fault : GnrFault) (hf : fault ≠ GnrFault.success) :
    (q.get_next_requests db now maxN pid fault).2 = db ∧
    ∃ k, (q.get_next_requests db now maxN pid fault).1 =
      ((query_next_requests db now maxN pid).take k).map request_from_record := by
  cases fault with
  | success => exact absurd rfl hf
  | duringLoop k => exact ⟨rfl, k, rfl⟩
  | atCommit =>
      exact ⟨rfl, (query_next_requests db now maxN pid).length, by
        rw [List.take_length]; rfl⟩

theorem get_next_requests_rollback_witness :
    (cxQueue.get_next_requests cxDb 10 5 0 GnrFault.atCommit).2 = cxDb ∧
    ∃ k, (cxQueue.get_next_requests cxDb 10 5 0 GnrFault.atCommit).1 =
      ((query_next_requests cxDb 10 5 0).take k).map request_from_record :=
  get_next_requests_failure_rolls_back cxQueue cxDb 10 5 0 GnrFault.atCommit
    (by decide)

/-- C8: on a successful `get_next_requests` call, the returned requests
are exactly the converted selected records, and every selected record is
stored back with `crawl_at` advanced to `now` plus the configured
dequeue-hold delay, which makes it ineligible for `query_next_requests`
at any time earlier than `now + delay`. -/
theorem get_next_requests_advances_crawl_at (q : RevisitingQueue) (db : Db)
    (now maxN pid : Nat) :
    (q.get_next_requests db now maxN pid GnrFault.success).1 =
      (query_next_requests db now maxN pid).map request_from_record ∧
    ∀ r ∈ query_next_requests db now maxN pid,
      ∃ r1 ∈ (q.get_next_requests db now maxN pid GnrFault.success).2.records,
        r1.id = r.id ∧ r1.crawl_at = now + q.dequeued_delay ∧
        ∀ t db2 maxN2 pid2, t < now + q.dequeued_delay →
          r1 ∉ query_next_requests db2 t maxN2 pid2 := by
  refine ⟨rfl, ?_⟩
  intro r hr
  have hrdb : r ∈ db.records :=
    ((query_next_requests_spec db now maxN pid).2.1 r hr).1
  have hany : (query_next_requests db now maxN pid).any
      (fun s => s.id = r.id) = true :=
    List.any_eq_true.mpr ⟨r, hr, by simp⟩
  refine ⟨{ r with crawl_at := now + q.dequeued_delay }, ?_, rfl, rfl, ?_⟩
  · show _ ∈ db.records.map _
    have := List.mem_map_of_mem (fun r2 =>
      if (query_next_requests db now maxN pid).any (fun s => s.id = r2.id)
      then { r2 with crawl_at := now + q.dequeued_delay } else r2) hrdb
    simpa [hany] using this
  · intro t db2 maxN2 pid2 ht hmem
    have h1 := ((query_next_requests_spec db2 t maxN2 pid2).2.1 _ hmem).2.2
    simp at h1
    omega

theorem get_next_requests_advance_witness :
    ∃ r1 ∈ (cxQueue.get_next_requests cxDb 10 5 0 GnrFault.success).2.records,
      r1.id = cxRecord.id ∧ r1.crawl_at = 10 + cxQueue.dequeued_delay ∧
      ∀ t db2 maxN2 pid2, t < 10 + cxQueue.dequeued_delay →
        r1 ∉ query_next_requests db2 t maxN2 pid2 :=
  (get_next_requests_advances_crawl_at cxQueue cxDb 10 5 0).2 cxRecord
    (by decide)

/-- C9: when the partitioner cannot derive a key for a scheduled entry
(`get_key` returns None), `request_data` assigns the queue's first
partition and logs the degradation (flag true), and scheduling a batch
containing that entry still completes without raising; the base
`Partitioner.partition` likewise returns the first partition of the
(nonempty) list for a None key. -/
theorem request_data_none_key_defaults (q : RevisitingQueue)
    (hostname_of : String → Option String) (crc32 : String → Nat)
    (now : Nat) (fprint : String) (score : Int) (request : Request)
    (p0 : Nat) (rest : List Nat)
    (hkey : q.partitioner.get_key request = none)
    (hparts : q.partitioner.partitions = p0 :: rest) :
    (∃ d, q.request_data hostname_of crc32 now fprint score request =
        some (d, true) ∧ d.partition_id = p0) ∧
    (∀ db : Db, (RevisitingQueue.schedule q hostname_of crc32 now db
      [⟨fprint, score, request, true⟩]).isSome) ∧
    (∀ (pr : Partitioner) (ps : List Nat), ps ≠ [] →
      pr.partition none ps = ps.head?) := by
  have h1 : ∃ d, q.request_data hostname_of crc32 now fprint score request =
      some (d, true) ∧ d.partition_id = p0 := by
    simp only [RevisitingQueue.request_data, hkey, hparts, List.head?]
    exact ⟨_, rfl, rfl⟩
  refine ⟨h1, ?_, ?_⟩
  · intro db
    obtain ⟨d, hd, hp⟩ := h1
    simp only [RevisitingQueue.schedule, scheduleGo, hd, if_true]
    cases hq : request.meta.queue_id with
    | none => simp [scheduleGo]
    | some qid =>
      by_cases h0 : qid = 0 <;> simp [h0, scheduleGo]
  · intro pr ps hps
    cases ps with
    | nil => exact absurd rfl hps
    | cons a t => simp [Partitioner.partition]

theorem request_data_none_key_witness :
    (∃ d, cxQueue.request_data hostnameNone crc0 7 "fp" 2 cxReq =
        some (d, true) ∧ d.partition_id = 0) ∧
    (∀ db : Db, (RevisitingQueue.schedule cxQueue hostnameNone crc0 7 db
      [⟨"fp", 2, cxReq, true⟩]).isSome) ∧
    (∀ (pr : Partitioner) (ps : List Nat), ps ≠ [] →
      pr.partition none ps = ps.head?) :=
  request_data_none_key_defaults cxQueue hostnameNone crc0 7 "fp" 2 cxReq 0 []
    rfl rfl

theorem map_update_skips_other_ids (i : Nat) (d : QueueData)
    (l : List QueueRecord) (h : ∀ r ∈ l, r.id ≠ i) :
    l.map (fun r => if r.id = i then applyData r d else r) = l := by
  rw [List.map_congr_left (fun r hr => if_neg (h r hr))]
  simp

/-- C2: a batch entry with `schedule = true` whose request carries a
(nonzero, storage-assigned) queue-record id in `meta[b'queue_id']` makes
`schedule` update that record in place and insert nothing: the store
keeps the same row count and next id, the one live record for the entry's
fingerprint now holds the new call's column data, and the entry's request
is marked QUEUED; an entry without a queue id takes the fresh-insert path
instead. -/
theorem schedule_upsert_in_place (q : RevisitingQueue)
    (hostname_of : String → Option String) (crc32 : String → Nat)
    (now : Nat) (db : Db) (pre post : List QueueRecord) (r0 : QueueRecord)
    (e : BatchEntry) (d : QueueData) (logged : Bool) (i : Nat)
    (hs : e.schedule = true)
    (hd : q.request_data hostname_of crc32 now e.fprint e.score e.request =
      some (d, logged))
    (hqid : e.request.meta.queue_id = some i)
    (hi : i ≠ 0)
    (hdb : db.records = pre ++ r0 :: post)
    (hr0id : r0.id = i)
    (hr0fp : r0.fingerprint = d.fingerprint)
    (hothers : ∀ r ∈ pre ++ post, r.id ≠ i ∧ r.fingerprint ≠ d.fingerprint) :
    RevisitingQueue.schedule q hostname_of crc32 now db [e] =
      some (⟨pre ++ applyData r0 d :: post, db.nextId⟩, [queuedEntry e]) ∧
    (pre ++ applyData r0 d :: post).length = db.records.length ∧
    ((pre ++ applyData r0 d :: post).filter
      (fun r => decide (r.fingerprint = d.fingerprint))).length = 1 ∧
    (applyData r0 d).score = d.score ∧ (applyData r0 d).crawl_at = d.crawl_at ∧
    (applyData r0 d).url = d.url ∧ (applyData r0 d).fingerprint = d.fingerprint ∧
    (∀ e2 d2 l2, e2.schedule = true → e2.request.meta.queue_id = none →
      q.request_data hostname_of crc32 now e2.fprint e2.score e2.request =
        some (d2, l2) →
      RevisitingQueue.schedule q hostname_of crc32 now db [e2] =
        some (db.insertData d2, [queuedEntry e2])) := by
  have hpre : ∀ r ∈ pre, r.id ≠ i ∧ r.fingerprint ≠ d.fingerprint :=
    fun r hr => hothers r (List.mem_append_left post hr)
  have hpost : ∀ r ∈ post, r.id ≠ i ∧ r.fingerprint ≠ d.fingerprint :=
    fun r hr => hothers r (List.mem_append_right pre hr)
  refine ⟨?_, by simp [hdb], ?_, rfl, rfl, rfl, rfl, ?_⟩
  · simp only [RevisitingQueue.schedule, scheduleGo, hs, if_true, hd, hqid,
      if_neg hi]
    have hupd : db.updateById i d =
        ⟨pre ++ applyData r0 d :: post, db.nextId⟩ := by
      unfold Db.updateById
      rw [hdb, List.map_append, List.map_cons, if_pos hr0id,
        map_update_skips_other_ids i d pre (fun r hr => (hpre r hr).1),
        map_update_skips_other_ids i d post (fun r hr => (hpost r hr).1)]
    show some ((db.updateById i d).insertAll [], [queuedEntry e]) = _
    rw [hupd]
    rfl
  · rw [List.filter_append, List.filter_cons]
    rw [show pre.filter (fun r => decide (r.fingerprint = d.fingerprint)) = []
        from List.filter_eq_nil_iff.mpr (fun r hr => by
          simpa using (hpre r hr).2),
      show post.filter (fun r => decide (r.fingerprint = d.fingerprint)) = []
        from List.filter_eq_nil_iff.mpr (fun r hr => by
          simpa using (hpost r hr).2)]
    simp [applyData]
  · intro e2 d2 l2 hs2 hq2 hd2
    simp only [RevisitingQueue.schedule, scheduleGo, hs2, if_true, hd2, hq2]
    rfl

theorem schedule_upsert_witness :
    RevisitingQueue.schedule cxQueue hostnameNone crc0 7 cxDb [cxEntry] =
      some (⟨[] ++ applyData cxRecord cxData :: [], cxDb.nextId⟩,
        [queuedEntry cxEntry]) :=
  (schedule_upsert_in_place cxQueue hostnameNone crc0 7 cxDb [] [] cxRecord
    cxEntry cxData true 1 rfl rfl rfl (by decide) rfl rfl rfl
    (by simp)).1

theorem scheduleGo_cons_false (q : RevisitingQueue)
    (hostname_of : String → Option String) (crc32 : String → Nat) (now : Nat)
    (db : Db) (ts : List QueueData) (e : BatchEntry) (rest : List BatchEntry)
    (hs : e.schedule = false) :
    scheduleGo q hostname_of crc32 now db ts (e :: rest) =
      (scheduleGo q hostname_of crc32 now db ts rest).map
        (fun x => (x.1, x.2.1, e :: x.2.2)) := by
  simp only [scheduleGo, hs, Bool.false_eq_true, if_false]

theorem scheduleGo_cons_raise (q : RevisitingQueue)
    (hostname_of : String → Option String) (crc32 : String → Nat) (now : Nat)
    (db : Db) (ts : List QueueData) (e : BatchEntry) (rest : List BatchEntry)
    (hs : e.schedule = true)
    (hrd : q.request_data hostname_of crc32 now e.fprint e.score e.request =
      none) :
    scheduleGo q hostname_of crc32 now db ts (e :: rest) = none := by
  simp only [scheduleGo, hs, if_true, hrd]

theorem scheduleGo_cons_insert (q : RevisitingQueue)
    (hostname_of : String → Option String) (crc32 : String → Nat) (now : Nat)
    (db : Db) (ts : List QueueData) (e : BatchEntry) (rest : List BatchEntry)
    (d : QueueData) (l : Bool)
    (hs : e.schedule = true)
    (hrd : q.request_data hostname_of crc32 now e.fprint e.score e.request =
      some (d, l))
    (hq : e.request.meta.queue_id = none) :
    scheduleGo q hostname_of crc32 now db ts (e :: rest) =
      (scheduleGo q hostname_of crc32 now db (ts ++ [d]) rest).map
        (fun x => (x.1, x.2.1, queuedEntry e :: x.2.2)) := by
  simp only [scheduleGo, hs, if_true, hrd, hq]

theorem scheduleGo_cons_insert_zero (q : RevisitingQueue)
    (hostname_of : String → Option String) (crc32 : String → Nat) (now : Nat)
    (db : Db) (ts : List QueueData) (e : BatchEntry) (rest : List BatchEntry)
    (d : QueueData) (l : Bool)
    (hs : e.schedule = true)
    (hrd : q.request_data hostname_of crc32 now e.fprint e.score e.request =
      some (d, l))
    (hq : e.request.meta.queue_id = some 0) :
    scheduleGo q hostname_of crc32 now db ts (e :: rest) =
      (scheduleGo q hostname_of crc32 now db (ts ++ [d]) rest).map
        (fun x => (x.1, x.2.1, queuedEntry e :: x.2.2)) := by
  simp only [scheduleGo, hs, if_true, hrd, hq, if_pos rfl]

theorem scheduleGo_cons_update (q : RevisitingQueue)
    (hostname_of : String → Option String) (crc32 : String → Nat) (now : Nat)
    (db : Db) (ts : List QueueData) (e : BatchEntry) (rest : List BatchEntry)
    (d : QueueData) (l : Bool) (qid : Nat)
    (hs : e.schedule = true)
    (hrd : q.request_data hostname_of crc32 now e.fprint e.score e.request =
      some (d, l))
    (hq : e.request.meta.queue_id = some qid) (h0 : qid ≠ 0) :
    scheduleGo q hostname_of crc32 now db ts (e :: rest) =
      (scheduleGo q hostname_of crc32 now (db.updateById qid d) ts rest).map
        (fun x => (x.1, x.2.1, queuedEntry e :: x.2.2)) := by
  simp only [scheduleGo, hs, if_true, hrd, hq, if_neg h0]

theorem scheduleGo_skip_entry (q : RevisitingQueue)
    (hostname_of : String → Option String) (crc32 : String → Nat) (now : Nat)
    (e : BatchEntry) (he : e.schedule = false) :
    ∀ (b1 b2 : List BatchEntry) (db : Db) (ts : List QueueData),
      scheduleGo q hostname_of crc32 now db ts (b1 ++ e :: b2) =
        (scheduleGo q hostname_of crc32 now db ts (b1 ++ b2)).map
          (fun x => (x.1, x.2.1,
            x.2.2.take b1.length ++ e :: x.2.2.drop b1.length)) := by
  intro b1
  induction b1 with
  | nil =>
    intro b2 db ts
    simp only [List.nil_append, List.length_nil, List.take_zero,
      List.drop_zero]
    rw [scheduleGo_cons_false q hostname_of crc32 now db ts e b2 he]
  | cons e1 rest ih =>
    intro b2 db ts
    rw [List.cons_append, List.cons_append]
    by_cases hs1 : e1.schedule
    · cases hrd : q.request_data hostname_of crc32 now e1.fprint e1.score
          e1.request with
      | none =>
        rw [scheduleGo_cons_raise q hostname_of crc32 now db ts e1 _ hs1 hrd,
          scheduleGo_cons_raise q hostname_of crc32 now db ts e1 _ hs1 hrd]
        rfl
      | some dl =>
        obtain ⟨d, l⟩ := dl
        cases hq1 : e1.request.meta.queue_id with
        | none =>
          rw [scheduleGo_cons_insert q hostname_of crc32 now db ts e1 _ d l
              hs1 hrd hq1,
            scheduleGo_cons_insert q hostname_of crc32 now db ts e1 _ d l
              hs1 hrd hq1,
            ih b2 db (ts ++ [d])]
          cases scheduleGo q hostname_of crc32 now db (ts ++ [d])
              (rest ++ b2) <;>
            simp [List.take_succ_cons, List.drop_succ_cons]
        | some qid =>
          by_cases h0 : qid = 0
          · subst h0
            rw [scheduleGo_cons_insert_zero q hostname_of crc32 now db ts e1 _
                d l hs1 hrd hq1,
              scheduleGo_cons_insert_zero q hostname_of crc32 now db ts e1 _
                d l hs1 hrd hq1,
              ih b2 db (ts ++ [d])]
            cases scheduleGo q hostname_of crc32 now db (ts ++ [d])
                (rest ++ b2) <;>
              simp [List.take_succ_cons, List.drop_succ_cons]
          · rw [scheduleGo_cons_update q hostname_of crc32 now db ts e1 _ d l
                qid hs1 hrd hq1 h0,
              scheduleGo_cons_update q hostname_of crc32 now db ts e1 _ d l
                qid hs1 hrd hq1 h0,
              ih b2 (db.updateById qid d) ts]
            cases scheduleGo q hostname_of crc32 now (db.updateById qid d) ts
                (rest ++ b2) <;>
              simp [List.take_succ_cons, List.drop_succ_cons]
    · rw [scheduleGo_cons_false q hostname_of crc32 now db ts e1 _
          (Bool.not_eq_true _ ▸ hs1),
        scheduleGo_cons_false q hostname_of crc32 now db ts e1 _
          (Bool.not_eq_true _ ▸ hs1),
        ih b2 db ts]
      cases scheduleGo q hostname_of crc32 now db ts (rest ++ b2) <;>
        simp [List.take_succ_cons, List.drop_succ_cons]

/-- C10: a batch entry with `schedule = false` is inert in
`RevisitingQueue.schedule`: the call behaves exactly like the call on the
batch without that entry — same resulting store (no row inserted or
updated for the entry) — with the entry itself returned unchanged in its
position (its request meta, including `meta[b'state']`, is not modified),
even though the Queue interface docstring says such entries should still
get their score updated in metadata. -/
theorem schedule_ignores_unscheduled_entries (q : RevisitingQueue)
    (hostname_of : String → Option String) (crc32 : String → Nat)
    (now : Nat) (db : Db) (b1 b2 : List BatchEntry) (e : BatchEntry)
    (he : e.schedule = false) :
    RevisitingQueue.schedule q hostname_of crc32 now db (b1 ++ e :: b2) =
      (RevisitingQueue.schedule q hostname_of crc32 now db (b1 ++ b2)).map
        (fun x => (x.1, x.2.take b1.length ++ e :: x.2.drop b1.length)) := by
  unfold RevisitingQueue.schedule
  rw [scheduleGo_skip_entry q hostname_of crc32 now e he b1 b2 db []]
  cases scheduleGo q hostname_of crc32 now db [] (b1 ++ b2) with
  | none => rfl
  | some x => obtain ⟨db1, ts, es⟩ := x; rfl

theorem schedule_ignores_unscheduled_witness :
    RevisitingQueue.schedule cxQueue hostnameNone crc0 7 cxDb
        ([] ++ cxFalseEntry :: []) =
      (RevisitingQueue.schedule cxQueue hostnameNone crc0 7 cxDb ([] ++ [])).map
        (fun x => (x.1,
          x.2.take ([] : List BatchEntry).length ++
            cxFalseEntry :: x.2.drop ([] : List BatchEntry).length)) :=
  schedule_ignores_unscheduled_entries cxQueue hostnameNone crc0 7 cxDb [] []
    cxFalseEntry rfl

end Frontera
